import Mathlib

/-
  Verification of the tiny-morse-decoder pipeline.

  Shallow embedding of src/tiny-morse-decoder.c (and of the code-number
  translation loop of src/tools/make-code-table.c).  Machine integers are
  modelled as Nat with explicit reduction modulo 2^16 = 65536 at the
  points where the C code computes on uint16_t / int16_t values.  The
  polling main loop is modelled as explicit state passing: each component
  is a step function from its persistent state record and the inputs of
  one poll to the new state and the produced output.
-/

set_option maxRecDepth 10000

/-! ## Timekeeping -/

/-- Embedding of `expired` (tiny-morse-decoder.c, lines 121-124):
`return (int16_t)(now - timeout) >= 0;` on uint16_t arguments.
The unsigned 16-bit difference `(now - timeout) mod 2^16` reinterpreted
as int16_t is nonnegative exactly when it is below 2^15. -/
def expired (now timeout : Nat) : Bool :=
  decide ((now % 65536 + (65536 - timeout % 65536)) % 65536 < 32768)

/-- A Nat reduced mod 2^16 and reinterpreted as a signed 16-bit value
(two-complement), as the C cast `(int16_t)` does. -/
def toSigned16 (x : Nat) : Int :=
  if x % 65536 < 32768 then (x % 65536 : Int) else (x % 65536 : Int) - 65536

/-- Unsigned 16-bit subtraction `a - b` (wrapping), as computed on
uint16_t operands in C. -/
def sub16 (a b : Nat) : Nat :=
  (a % 65536 + (65536 - b % 65536)) % 65536

/-! ## Keying speed selection -/

/-- `DEBOUNCE_TIME` (line 69): `(uint16_t)(0.01*TIC_FREQ+0.5)` with
`TIC_FREQ = 9600 Hz` on the ATtiny13A build, i.e. 96 tics. -/
def DEBOUNCE_TIME : Nat := 96

/-- The `dot_times` flash table (lines 141-144):
`{DOT_TIME(18), DOT_TIME(12), DOT_TIME(8), DOT_TIME(5)}` where
`DOT_TIME(rate) = (uint16_t)(1.2/rate*9600)`; the four products are
exact (2304/5 etc. times 9600 land on integers), giving these tics. -/
def dot_times : List Nat := [640, 960, 1440, 2304]

/-- `delay_1u` as set by `set_delays` (lines 157-163) from the 2-bit
speed selection read from PB0/PB1. -/
def delay_1u (speed : Fin 4) : Nat := dot_times.getD speed.val 0

/-- `delay_2u = delay_1u + delay_1u` (line 161). -/
def delay_2u (speed : Fin 4) : Nat := delay_1u speed + delay_1u speed

/-- `delay_3u = delay_2u + delay_1u` (line 162). -/
def delay_3u (speed : Fin 4) : Nat := delay_2u speed + delay_1u speed

/-! ## Edge detector -/

/-- `edge_t` (line 170). -/
inductive Edge where
  | NO_EDGE
  | RISE
  | FALL
deriving DecidableEq, Repr

/-- The edge detector FSM states (line 191). -/
inductive EdSt where
  | UP
  | DOWN
  | BOUNCING
deriving DecidableEq, Repr

/-- Persistent state of `get_edge`: the FSM state, the armed debounce
timeout, plus the LED output line (PB3) it drives. -/
structure EdState where
  st : EdSt
  timeout : Nat
  led : Bool
deriving DecidableEq, Repr

/-- Embedding of `get_edge` (lines 189-219).  Inputs of one poll: the
raw key reading (`key_down()`) and the current time (`tics()`). -/
def get_edge (s : EdState) (key : Bool) (now : Nat) : EdState × Edge :=
  match s.st with
  | EdSt.UP =>
      if key then ({ st := EdSt.DOWN, timeout := s.timeout, led := true }, Edge.FALL)
      else (s, Edge.NO_EDGE)
  | EdSt.DOWN =>
      if key then (s, Edge.NO_EDGE)
      else ({ st := EdSt.BOUNCING, timeout := (now + DEBOUNCE_TIME) % 65536,
              led := s.led }, Edge.NO_EDGE)
  | EdSt.BOUNCING =>
      if key then ({ st := EdSt.DOWN, timeout := s.timeout, led := s.led }, Edge.NO_EDGE)
      else if expired now s.timeout then
        ({ st := EdSt.UP, timeout := s.timeout, led := false }, Edge.RISE)
      else (s, Edge.NO_EDGE)

/-! ## Tokenizer -/

/-- `symbol_t` (line 226). -/
inductive symbol_t where
  | NO_SYMBOL
  | DOT
  | DASH
  | END_OF_CHAR
  | END_OF_WORD
deriving DecidableEq, Repr

/-- The tokenizer FSM states (lines 235-237). -/
inductive TokSt where
  | INTERWORD
  | SHORT
  | LONG
  | INTERELEMENT
  | INTERCHARACTER
deriving DecidableEq, Repr

/-- Persistent state of `tokenize`: the FSM state and the armed timeout. -/
structure TokState where
  st : TokSt
  timeout : Nat
deriving DecidableEq, Repr

/-- Embedding of `tokenize` (lines 233-284), parameterized by the
startup-derived delays.  Inputs of one poll: the detected edge and the
current time. -/
def tokenize (d2 d3 : Nat) (s : TokState) (edge : Edge) (now : Nat) :
    TokState × symbol_t :=
  match s.st with
  | TokSt.INTERWORD =>
      if edge = Edge.FALL then
        ({ st := TokSt.SHORT, timeout := (now + d2) % 65536 }, symbol_t.NO_SYMBOL)
      else (s, symbol_t.NO_SYMBOL)
  | TokSt.SHORT =>
      if edge = Edge.RISE then
        ({ st := TokSt.INTERELEMENT, timeout := (now + d2) % 65536 }, symbol_t.DOT)
      else if expired now s.timeout then
        ({ st := TokSt.LONG, timeout := s.timeout }, symbol_t.NO_SYMBOL)
      else (s, symbol_t.NO_SYMBOL)
  | TokSt.LONG =>
      if edge = Edge.RISE then
        ({ st := TokSt.INTERELEMENT, timeout := (now + d2) % 65536 }, symbol_t.DASH)
      else (s, symbol_t.NO_SYMBOL)
  | TokSt.INTERELEMENT =>
      if edge = Edge.FALL then
        ({ st := TokSt.SHORT, timeout := (now + d2) % 65536 }, symbol_t.NO_SYMBOL)
      else if expired now s.timeout then
        ({ st := TokSt.INTERCHARACTER, timeout := (now + d3) % 65536 }, symbol_t.END_OF_CHAR)
      else (s, symbol_t.NO_SYMBOL)
  | TokSt.INTERCHARACTER =>
      if edge = Edge.FALL then
        ({ st := TokSt.SHORT, timeout := (now + d2) % 65536 }, symbol_t.NO_SYMBOL)
      else if expired now s.timeout then
        ({ st := TokSt.INTERWORD, timeout := s.timeout }, symbol_t.END_OF_WORD)
      else (s, symbol_t.NO_SYMBOL)

/-! ## Decoder -/

/-- The generated `morse_code` flash table (lines 294-300), 59 code
numbers indexed by ASCII code minus 32 (index 0 holds the code of
the underscore character). -/
def morse_code : List Nat :=
  [363, 694, 221,   0, 375,   0,  61, 853, 214, 726,   0, 109,
   698, 190, 365, 110, 682, 341, 171,  87,  47,  31,  62, 122,
   234, 426, 490, 438,   0,  94,   0, 235, 437,   5,  30,  54,
    14,   1,  27,  26,  15,   3,  85,  22,  29,  10,   6,  42,
    53,  90,  13,   7,   2,  11,  23,  21,  46,  86,  58]

/-- Embedding of `code_to_char` (lines 308-324).  Characters are
modelled by their ASCII codes: 95 is the underscore, 35 is the hash
(invalid marker), 32 is the space.  The linear search breaks at the
first index holding `code`; `List.findIdx` returns the length 59 when
no entry matches, exactly like the exhausted `for` loop. -/
def code_to_char (code : Nat) : Nat :=
  let i := List.findIdx (fun v => v == code) morse_code
  if i = 0 then 95
  else if i < 59 then 32 + i
  else 35

/-- Persistent state of `decode` (line 340): the accumulated code
number and the running bitmask, both uint16_t. -/
structure DecState where
  code : Nat
  bitmask : Nat
deriving DecidableEq, Repr

/-- Embedding of `decode` (lines 338-361).  Returns the new state and
the produced ASCII code, 0 when no character is produced this poll.
The DASH case shifts the bitmask once more before oring it in (the C
fallthrough), appending the bits 0,1 to the stream. -/
def decode (s : DecState) (sym : symbol_t) : DecState × Nat :=
  match sym with
  | symbol_t.NO_SYMBOL => (s, 0)
  | symbol_t.DOT =>
      ({ code := s.code ||| s.bitmask, bitmask := s.bitmask * 2 % 65536 }, 0)
  | symbol_t.DASH =>
      ({ code := s.code ||| (s.bitmask * 2 % 65536),
         bitmask := s.bitmask * 2 % 65536 * 2 % 65536 }, 0)
  | symbol_t.END_OF_CHAR =>
      ({ code := 0, bitmask := 1 }, code_to_char s.code)
  | symbol_t.END_OF_WORD => (s, 32)

/-! ## Software UART transmitter -/

/-- Transmitter state: the 16-bit shift register, whether the
TIM0_COMPB interrupt is enabled (OCIE0B bit), and the TX line (PB2). -/
structure UartState where
  shift : Nat
  enabled : Bool
  line : Bool
deriving DecidableEq, Repr

/-- Embedding of `uart_putchar` (lines 417-422):
`uart_shift_register = (0x0100 | (uint8_t)c) << 1` and enable the
transmit interrupt.  The result fits int16_t (at most 0x3FE). -/
def uart_putchar (c : Nat) (s : UartState) : UartState :=
  { shift := (0x0100 ||| c % 256) * 2 % 65536, enabled := true, line := s.line }

/-- Embedding of the `ISR(TIM0_COMPB_vect)` body (lines 380-409):
output the least significant bit, shift right, and disable the
interrupt when the low byte of the shifted register is zero. -/
def uart_isr (s : UartState) : UartState :=
  { shift := s.shift / 2,
    enabled := if s.shift / 2 % 256 = 0 then false else s.enabled,
    line := s.shift % 2 = 1 }

/-- One transmit tick: the ISR body runs only while the interrupt is
enabled. -/
def uart_tick (s : UartState) : UartState :=
  if s.enabled then uart_isr s else s

/-- The TX line levels seen after each of the next `n` transmit ticks. -/
def uartTrace : Nat → UartState → List Bool
  | 0, _ => []
  | n + 1, s =>
      let s1 := uart_tick s
      s1.line :: uartTrace n s1

/-! ## Poll-sequence runners for the tokenizer -/

/-- Run `n` polls of the tokenizer with no edge, at times
`t+1, t+2, ..., t+n` (one poll per tic), collecting the emitted
symbols. -/
def runQuiet (d2 d3 : Nat) : Nat → TokState → Nat → TokState × List symbol_t
  | 0, s, _ => (s, [])
  | n + 1, s, t =>
      let r := tokenize d2 d3 s Edge.NO_EDGE (t + 1)
      let q := runQuiet d2 d3 n r.1 (t + 1)
      (q.1, r.2 :: q.2)

/-- The symbols a list of polls actually emits (drop `NO_SYMBOL`). -/
def emitted (l : List symbol_t) : List symbol_t :=
  l.filter (fun s => decide (s ≠ symbol_t.NO_SYMBOL))

/-- A mark scenario, polled once per tic: the falling edge was
processed at time `t0` (the tokenizer entered SHORT and armed
`t0 + d2`); then `D - 1` polls with no edge at `t0+1 .. t0+D-1`, and
the rising edge is processed at `t0 + D`.  Gives the final tokenizer
state and the symbols of the polls after the falling edge. -/
def markRun (d2 d3 t0 D : Nat) : TokState × List symbol_t :=
  let q := runQuiet d2 d3 (D - 1) { st := TokSt.SHORT, timeout := (t0 + d2) % 65536 } t0
  let r := tokenize d2 d3 q.1 Edge.RISE (t0 + D)
  (r.1, q.2 ++ [r.2])

/-- A gap scenario, polled once per tic: the rising edge that closed a
mark was processed at time `t0` (the tokenizer entered INTERELEMENT
and armed `t0 + d2`); then `G - 1` polls with no edge, and the next
falling edge is processed at `t0 + G`. -/
def gapRun (d2 d3 t0 G : Nat) : TokState × List symbol_t :=
  let q := runQuiet d2 d3 (G - 1) { st := TokSt.INTERELEMENT, timeout := (t0 + d2) % 65536 } t0
  let r := tokenize d2 d3 q.1 Edge.FALL (t0 + G)
  (r.1, q.2 ++ [r.2])

/-! ## Poll-sequence runner for the edge detector -/

/-- Run `n` polls of the edge detector with the key released, at times
`t+1 .. t+n`, collecting the emitted edges. -/
def edRunQuiet : Nat → EdState → Nat → EdState × List Edge
  | 0, s, _ => (s, [])
  | n + 1, s, t =>
      let r := get_edge s false (t + 1)
      let q := edRunQuiet n r.1 (t + 1)
      (q.1, r.2 :: q.2)

/-- A bounce scenario, polled once per tic: from the DOWN state the key
reads released at time `t0` (BOUNCING is entered and `t0 + 96` armed),
stays released for the polls at `t0+1 .. t0+r-1`, and reads asserted
again at `t0 + r`. -/
def bounceRun (t0 r T : Nat) (led : Bool) : EdState × List Edge :=
  let p := get_edge { st := EdSt.DOWN, timeout := T, led := led } false t0
  let q := edRunQuiet (r - 1) p.1 t0
  let f := get_edge q.1 true (t0 + r)
  (f.1, p.2 :: q.2 ++ [f.2])

/-! ## The generator translation (src/tools/make-code-table.c) -/

/-- A Morse mark: a dot or a dash. -/
inductive Mark where
  | dot
  | dash
deriving DecidableEq, Repr

/-- The tokenizer symbol carrying a mark. -/
def markSymbol : Mark → symbol_t
  | Mark.dot => symbol_t.DOT
  | Mark.dash => symbol_t.DASH

/-- Code accumulator of the translation loop in make-code-table.c
(lines 36-46): dot sets the bit at the bitmask, dash first shifts the
bitmask (inserting a 0) and then sets the bit; the bitmask doubles
once per appended bit.  Computed in unsigned int, no 16-bit wrap. -/
def seqCodeAux : Nat → Nat → List Mark → Nat
  | c, _, [] => c
  | c, bm, Mark.dot :: r => seqCodeAux (c ||| bm) (bm * 2) r
  | c, bm, Mark.dash :: r => seqCodeAux (c ||| (bm * 2)) (bm * 2 * 2) r

/-- Final bitmask of the translation loop (it depends only on the
sequence, not on the accumulated code). -/
def seqBmAux : Nat → List Mark → Nat
  | bm, [] => bm
  | bm, Mark.dot :: r => seqBmAux (bm * 2) r
  | bm, Mark.dash :: r => seqBmAux (bm * 2 * 2) r

/-- The code number of a dot/dash sequence, as make-code-table.c
computes it (starting from code 0, bitmask 1). -/
def seqCode (seq : List Mark) : Nat := seqCodeAux 0 1 seq

/-- Feed a list of symbols through successive `decode` calls. -/
def decodeRun (s : DecState) : List symbol_t → DecState
  | [] => s
  | sym :: r => decodeRun (decode s sym).1 r

/-- The character produced when a symbol sequence is followed by
END_OF_CHAR, starting from the reset decoder state (0, 1). -/
def decodeChar (seq : List symbol_t) : Nat :=
  (decode (decodeRun { code := 0, bitmask := 1 } seq) symbol_t.END_OF_CHAR).2

/-! ## The tokenizer-decoder pipeline -/

/-- Joint state of one poll-loop iteration past the edge detector:
the tokenizer state, the decoder state, and a ghost counter of the
DOT/DASH symbols emitted since the last END_OF_CHAR. -/
structure PipeState where
  tok : TokState
  dec : DecState
  marks : Nat
deriving DecidableEq, Repr

/-- One poll of tokenizer plus decoder, as in the main loop
(lines 462-468), with the ghost mark counter updated. -/
def pipeStep (d2 d3 : Nat) (s : PipeState) (e : Edge) (now : Nat) : PipeState :=
  let r := tokenize d2 d3 s.tok e now
  let d := decode s.dec r.2
  let m := match r.2 with
    | symbol_t.DOT => s.marks + 1
    | symbol_t.DASH => s.marks + 1
    | symbol_t.END_OF_CHAR => 0
    | _ => s.marks
  { tok := r.1, dec := d.1, marks := m }

/-- The initial pipeline state: C statics are zero-initialized, so the
tokenizer starts in INTERWORD with timeout 0 and the decoder with
code 0, bitmask 1 (line 340). -/
def pipeInit : PipeState :=
  { tok := { st := TokSt.INTERWORD, timeout := 0 },
    dec := { code := 0, bitmask := 1 }, marks := 0 }

/-- Run the pipeline over a list of polls, each poll being the detected
edge together with the tics value read in that loop iteration. -/
def pipeRun (d2 d3 : Nat) (polls : List (Edge × Nat)) : PipeState :=
  polls.foldl (fun s p => pipeStep d2 d3 s p.1 p.2) pipeInit

/-- The pipeline invariant: whenever the tokenizer rests between the
elements of a character at least one mark has been accumulated (code
number nonzero), and across character boundaries the accumulator is
freshly reset.  The first conjunct is the decoder-local invariant that
a zero code comes with a reset bitmask. -/
def pipeInv (s : PipeState) : Prop :=
  (s.dec.code = 0 → s.dec.bitmask = 1)
  ∧ (s.tok.st = TokSt.INTERWORD → s.dec.code = 0 ∧ s.marks = 0)
  ∧ (s.tok.st = TokSt.INTERCHARACTER → s.dec.code = 0 ∧ s.marks = 0)
  ∧ (s.tok.st = TokSt.INTERELEMENT → s.dec.code ≠ 0 ∧ 1 ≤ s.marks)

/-! ## Arithmetic bridge lemmas for expired -/

/-- A timeout armed `b` tics after a base time has not expired at `a < b`
tics after that base, as long as the distance stays within the signed
16-bit window. -/
theorem expired_false_of_lt (t0 a b : Nat) (h1 : a < b) (h2 : b - a ≤ 32768) :
    expired (t0 + a) ((t0 + b) % 65536) = false := by
  simp only [expired, decide_eq_false_iff_not, not_lt]
  omega

/-- A timeout armed `b` tics after a base time has expired at `a ≥ b`
tics after that base, as long as the overshoot stays within the signed
16-bit window. -/
theorem expired_true_of_ge (t0 a b : Nat) (h1 : b ≤ a) (h2 : a - b ≤ 32767) :
    expired (t0 + a) ((t0 + b) % 65536) = true := by
  simp only [expired, decide_eq_true_eq]
  omega

/-! ## C1 -/

/-- C1: with accumulated code number 0, `code_to_char` does NOT return
the underscore sentinel 95: the linear search hits the first zero
placeholder entry of the table, at index 3, and returns 32 + 3 = 35,
the hash character that is also the invalid marker.  This contradicts
the documented behavior (the comment on `code_to_char` states that code
number 0 means the underscore). -/
theorem code_to_char_zero_gives_invalid_marker :
    code_to_char 0 = 35 ∧ code_to_char 0 ≠ 95 := by decide

/-! ## C3 -/

/-- C3 (counterexample): the claimed equivalence fails at
now = 32768, deadline = 0: there `(deadline - now)` as a signed 16-bit
value is -32768, which is ≤ 0, yet `expired` returns false. -/
theorem expired_signed_cex :
    expired 32768 0 = false ∧ toSigned16 (sub16 0 32768) ≤ 0 := by decide

/-- C3 (amended): `expired now deadline` is true iff `(now - deadline)`
interpreted as a signed 16-bit difference is `>= 0` (equivalently, iff
`(deadline - now)` signed is `<= 0` AND is not exactly -32768); and for
every deadline armed `d <= 32767` tics after a base and every elapsed
time `e < d + 32768`, `expired` is consistent across 16-bit rollover:
it returns true exactly when `d <= e`. -/
theorem expired_signed_characterization :
    (∀ now deadline : Nat, expired now deadline = true ↔ 0 ≤ toSigned16 (sub16 now deadline))
    ∧ (∀ start d e : Nat, d ≤ 32767 → e < d + 32768 →
        (expired ((start + e) % 65536) ((start + d) % 65536) = true ↔ d ≤ e)) := by
  constructor
  · intro now deadline
    simp only [expired, toSigned16, sub16, decide_eq_true_eq]
    split_ifs <;> omega
  · intro start d e h1 h2
    simp only [expired, decide_eq_true_eq]
    omega

/-- C3 (witness): the rollover part at a deadline armed 10 tics ahead
of base 65534 (the counter wraps), checked 20 tics after the base. -/
theorem expired_signed_characterization_witness :
    (10 : Nat) ≤ 32767 ∧ (20 : Nat) < 10 + 32768 ∧
      (expired ((65534 + 20) % 65536) ((65534 + 10) % 65536) = true ↔ (10 : Nat) ≤ 20) :=
  ⟨by decide, by decide,
    expired_signed_characterization.2 65534 10 20 (by decide) (by decide)⟩

/-! ## C8 -/

/-- C8: every timeout horizon armed by the edge detector
(DEBOUNCE_TIME) and by the tokenizer (delay_2u, delay_3u) is at most
32767 tics for each of the 4 selectable keying speeds, so every armed
deadline fits the wraparound-safe comparison window. -/
theorem timeout_horizons_within_window :
    DEBOUNCE_TIME ≤ 32767 ∧
      ∀ speed : Fin 4, delay_2u speed ≤ 32767 ∧ delay_3u speed ≤ 32767 := by
  decide

/-! ## C6 -/

/-- C6: after `uart_putchar 0x41` (line idle high, interrupt off), the
ten transmit ticks output start bit low, then the bits of 0x41 least
significant first (1,0,0,0,0,0,1,0), then the stop bit high; after the
tenth tick the interrupt has disabled itself, and the state (line
high, interrupt off) persists for every further tick. -/
theorem uart_frame_0x41 :
    uartTrace 10 (uart_putchar 0x41 { shift := 0, enabled := false, line := true }) =
      [false, true, false, false, false, false, false, true, false, true]
    ∧ ∀ n : Nat,
        uart_tick^[n]
            (uart_tick^[10] (uart_putchar 0x41 { shift := 0, enabled := false, line := true })) =
          { shift := 0, enabled := false, line := true } := by
  refine ⟨by decide, ?_⟩
  intro n
  have h10 : uart_tick^[10] (uart_putchar 0x41 { shift := 0, enabled := false, line := true }) =
      { shift := 0, enabled := false, line := true } := by decide
  rw [h10]
  exact Function.iterate_fixed (by decide) n

/-! ## C9 -/

/-- The character produced by `code_to_char` is always in the printable
band 32..95, whatever the code number. -/
theorem code_to_char_range (code : Nat) :
    32 ≤ code_to_char code ∧ code_to_char code ≤ 95 := by
  simp only [code_to_char]
  generalize List.findIdx (fun v => v == code) morse_code = i
  split_ifs <;> omega

/-- Bounded core of the frame-completion property, decided for every
possible data byte value in 32..95: the transmit interrupt is still
enabled after ticks 1..9 and disables itself exactly at tick 10, with
the line left high (the stop bit). -/
theorem uart_stop_exact : ∀ c : Nat, c < 96 → 32 ≤ c →
    (∀ j : Nat, j < 9 →
      (uart_tick^[j] (uart_tick (uart_putchar c { shift := 0, enabled := false, line := false }))).enabled = true)
    ∧ (uart_tick^[9] (uart_tick (uart_putchar c { shift := 0, enabled := false, line := false }))).enabled = false
    ∧ (uart_tick^[9] (uart_tick (uart_putchar c { shift := 0, enabled := false, line := false }))).line = true := by
  decide

/-- The first transmit tick after `uart_putchar` does not depend on the
previous line level. -/
theorem uart_tick_putchar_line_irrel (c : Nat) (s0 : UartState) :
    uart_tick (uart_putchar c s0) =
      uart_tick (uart_putchar c { shift := 0, enabled := false, line := false }) := by
  simp [uart_putchar, uart_tick, uart_isr]

/-- C9: every nonzero ASCII code returned by `decode` lies in 32..95,
hence its low byte is neither 0x00 nor 0x80; and for any such byte the
transmit completion test (which inspects only the low byte of the
shift register) keeps the interrupt enabled through the whole frame
and stops it exactly after the stop bit (tick 10), line high. -/
theorem decoded_chars_printable :
    (∀ (s : DecState) (sym : symbol_t), (decode s sym).2 ≠ 0 →
        32 ≤ (decode s sym).2 ∧ (decode s sym).2 ≤ 95 ∧
        (decode s sym).2 % 256 ≠ 0 ∧ (decode s sym).2 % 256 ≠ 128)
    ∧ (∀ (c : Nat) (s0 : UartState), 32 ≤ c → c ≤ 95 →
        (∀ k : Nat, k ≤ 9 → (uart_tick^[k] (uart_putchar c s0)).enabled = true)
        ∧ (uart_tick^[10] (uart_putchar c s0)).enabled = false
        ∧ (uart_tick^[10] (uart_putchar c s0)).line = true) := by
  constructor
  · intro s sym h
    cases sym
    · simp [decode] at h
    · simp [decode] at h
    · simp [decode] at h
    · have := code_to_char_range s.code
      simp only [decode] at h ⊢
      omega
    · simp only [decode] at h ⊢
      omega
  · intro c s0 h1 h2
    have hc : c < 96 := by omega
    constructor
    · intro k hk
      match k with
      | 0 => rfl
      | j + 1 =>
          rw [Function.iterate_succ_apply, uart_tick_putchar_line_irrel]
          exact (uart_stop_exact c hc h1).1 j (by omega)
    · constructor
      · have h9 : (10 : Nat) = 9 + 1 := rfl
        rw [h9, Function.iterate_succ_apply, uart_tick_putchar_line_irrel]
        exact (uart_stop_exact c hc h1).2.1
      · have h9 : (10 : Nat) = 9 + 1 := rfl
        rw [h9, Function.iterate_succ_apply, uart_tick_putchar_line_irrel]
        exact (uart_stop_exact c hc h1).2.2

/-- C9 (witness): the end-of-word space character (32) and the frame
of the character L (76). -/
theorem decoded_chars_printable_witness :
    (decode { code := 0, bitmask := 1 } symbol_t.END_OF_WORD).2 ≠ 0
    ∧ (32 ≤ (decode { code := 0, bitmask := 1 } symbol_t.END_OF_WORD).2
        ∧ (decode { code := 0, bitmask := 1 } symbol_t.END_OF_WORD).2 ≤ 95
        ∧ (decode { code := 0, bitmask := 1 } symbol_t.END_OF_WORD).2 % 256 ≠ 0
        ∧ (decode { code := 0, bitmask := 1 } symbol_t.END_OF_WORD).2 % 256 ≠ 128)
    ∧ ((∀ k : Nat, k ≤ 9 →
          (uart_tick^[k] (uart_putchar 76 { shift := 0, enabled := false, line := true })).enabled = true)
        ∧ (uart_tick^[10] (uart_putchar 76 { shift := 0, enabled := false, line := true })).enabled = false
        ∧ (uart_tick^[10] (uart_putchar 76 { shift := 0, enabled := false, line := true })).line = true) :=
  ⟨by decide,
    decoded_chars_printable.1 { code := 0, bitmask := 1 } symbol_t.END_OF_WORD (by decide),
    decoded_chars_printable.2 76 { shift := 0, enabled := false, line := true } (by decide) (by decide)⟩

/-! ## Generic facts about quiet poll runs of the tokenizer -/

/-- Polls that emit `NO_SYMBOL` contribute nothing to `emitted`. -/
theorem emitted_replicate (n : Nat) :
    emitted (List.replicate n symbol_t.NO_SYMBOL) = [] := by
  induction n with
  | zero => rfl
  | succ n ih => simp [emitted, List.replicate_succ, ih]

/-- `emitted` distributes over append. -/
theorem emitted_append (a b : List symbol_t) :
    emitted (a ++ b) = emitted a ++ emitted b := by
  simp [emitted, List.filter_append]

/-- A quiet run of `m + n` polls is the quiet run of `m` polls followed
by a quiet run of `n` polls from the reached state. -/
theorem runQuiet_add (d2 d3 : Nat) :
    ∀ (m n : Nat) (s : TokState) (t : Nat),
      runQuiet d2 d3 (m + n) s t =
        ((runQuiet d2 d3 n (runQuiet d2 d3 m s t).1 (t + m)).1,
          (runQuiet d2 d3 m s t).2 ++ (runQuiet d2 d3 n (runQuiet d2 d3 m s t).1 (t + m)).2) := by
  intro m
  induction m with
  | zero =>
      intro n s t
      simp [runQuiet]
  | succ m ih =>
      intro n s t
      have hmn : m + 1 + n = (m + n) + 1 := by omega
      rw [hmn]
      simp only [runQuiet]
      rw [ih]
      rw [show t + (m + 1) = t + 1 + m from by omega]
      simp

/-- In the SHORT, INTERELEMENT and INTERCHARACTER states a poll with no
edge and a pending (unexpired) timeout leaves the tokenizer untouched:
running `n` such polls, all strictly before the armed deadline, emits
nothing and keeps the state. -/
theorem runQuiet_stay (d2 d3 t0 b : Nat) (st : TokSt)
    (hst : st = TokSt.SHORT ∨ st = TokSt.INTERELEMENT ∨ st = TokSt.INTERCHARACTER)
    (hb : b ≤ 32768) :
    ∀ n k : Nat, k + n < b →
      runQuiet d2 d3 n { st := st, timeout := (t0 + b) % 65536 } (t0 + k) =
        ({ st := st, timeout := (t0 + b) % 65536 }, List.replicate n symbol_t.NO_SYMBOL) := by
  intro n
  induction n with
  | zero =>
      intro k hk
      simp [runQuiet]
  | succ n ih =>
      intro k hk
      have hexp : expired (t0 + k + 1) ((t0 + b) % 65536) = false := by
        have h := expired_false_of_lt t0 (k + 1) b (by omega) (by omega)
        rwa [← Nat.add_assoc] at h
      have hstep : tokenize d2 d3 { st := st, timeout := (t0 + b) % 65536 } Edge.NO_EDGE (t0 + k + 1) =
          ({ st := st, timeout := (t0 + b) % 65536 }, symbol_t.NO_SYMBOL) := by
        rcases hst with h | h | h <;> subst h <;> simp [tokenize, hexp]
      have hrec := ih (k + 1) (by omega)
      rw [← Nat.add_assoc] at hrec
      simp only [runQuiet, hstep, hrec]
      simp [List.replicate_succ]

/-- The LONG state ignores polls with no edge entirely (it only reacts
to a rising edge). -/
theorem runQuiet_long (d2 d3 : Nat) :
    ∀ (n T t : Nat),
      runQuiet d2 d3 n { st := TokSt.LONG, timeout := T } t =
        ({ st := TokSt.LONG, timeout := T }, List.replicate n symbol_t.NO_SYMBOL) := by
  intro n
  induction n with
  | zero => intro T t; simp [runQuiet]
  | succ n ih => intro T t; simp [runQuiet, tokenize, ih, List.replicate_succ]

/-- The INTERWORD state ignores polls with no edge entirely (it only
reacts to a falling edge). -/
theorem runQuiet_interword (d2 d3 : Nat) :
    ∀ (n T t : Nat),
      runQuiet d2 d3 n { st := TokSt.INTERWORD, timeout := T } t =
        ({ st := TokSt.INTERWORD, timeout := T }, List.replicate n symbol_t.NO_SYMBOL) := by
  intro n
  induction n with
  | zero => intro T t; simp [runQuiet]
  | succ n ih => intro T t; simp [runQuiet, tokenize, ih, List.replicate_succ]

/-- A quiet run from SHORT (timeout armed `d2` after base `t0`) of
fewer than `d2` polls stays in SHORT. -/
theorem quiet_short_small (d2 d3 t0 n : Nat) (hb : d2 ≤ 32768) (hn : n < d2) :
    runQuiet d2 d3 n { st := TokSt.SHORT, timeout := (t0 + d2) % 65536 } t0 =
      ({ st := TokSt.SHORT, timeout := (t0 + d2) % 65536 }, List.replicate n symbol_t.NO_SYMBOL) := by
  have h := runQuiet_stay d2 d3 t0 d2 TokSt.SHORT (Or.inl rfl) hb n 0 (by omega)
  rwa [Nat.add_zero] at h

/-- A quiet run from SHORT of at least `d2` polls moves to LONG at the
deadline poll and stays there, still emitting nothing. -/
theorem quiet_short_large (d2 d3 t0 n : Nat) (h1 : 1 ≤ d2) (hb : d2 ≤ 32767) (hn : d2 ≤ n) :
    runQuiet d2 d3 n { st := TokSt.SHORT, timeout := (t0 + d2) % 65536 } t0 =
      ({ st := TokSt.LONG, timeout := (t0 + d2) % 65536 }, List.replicate n symbol_t.NO_SYMBOL) := by
  have hsplit : n = (d2 - 1) + (n - d2 + 1) := by omega
  have ht : t0 + (d2 - 1) + 1 = t0 + d2 := by omega
  have hexp : expired (t0 + d2) ((t0 + d2) % 65536) = true :=
    expired_true_of_ge t0 d2 d2 le_rfl (by omega)
  have hstep : tokenize d2 d3 { st := TokSt.SHORT, timeout := (t0 + d2) % 65536 }
      Edge.NO_EDGE (t0 + d2) =
      ({ st := TokSt.LONG, timeout := (t0 + d2) % 65536 }, symbol_t.NO_SYMBOL) := by
    simp [tokenize, hexp]
  conv_lhs => rw [hsplit]
  rw [runQuiet_add]
  rw [quiet_short_small d2 d3 t0 (d2 - 1) (by omega) (by omega)]
  simp only [runQuiet, ht, hstep, runQuiet_long]
  rw [← List.replicate_succ, ← List.replicate_add]
  rw [show d2 - 1 + (n - d2 + 1) = n from by omega]

/-- A quiet run from INTERELEMENT (timeout armed `d2` after base `t0`)
of fewer than `d2` polls stays in INTERELEMENT. -/
theorem quiet_ie_small (d2 d3 t0 n : Nat) (hb : d2 ≤ 32768) (hn : n < d2) :
    runQuiet d2 d3 n { st := TokSt.INTERELEMENT, timeout := (t0 + d2) % 65536 } t0 =
      ({ st := TokSt.INTERELEMENT, timeout := (t0 + d2) % 65536 },
        List.replicate n symbol_t.NO_SYMBOL) := by
  have h := runQuiet_stay d2 d3 t0 d2 TokSt.INTERELEMENT (Or.inr (Or.inl rfl)) hb n 0 (by omega)
  rwa [Nat.add_zero] at h

/-- A quiet run from INTERELEMENT of at least `d2` but fewer than
`d2 + d3` polls emits END_OF_CHAR at the deadline poll, arms `d3` more
tics, and waits in INTERCHARACTER. -/
theorem quiet_ie_mid (d2 d3 t0 n : Nat) (h2 : 1 ≤ d2) (h23 : d2 + d3 ≤ 32767)
    (hn1 : d2 ≤ n) (hn2 : n < d2 + d3) :
    runQuiet d2 d3 n { st := TokSt.INTERELEMENT, timeout := (t0 + d2) % 65536 } t0 =
      ({ st := TokSt.INTERCHARACTER, timeout := (t0 + (d2 + d3)) % 65536 },
        List.replicate (d2 - 1) symbol_t.NO_SYMBOL ++
          symbol_t.END_OF_CHAR :: List.replicate (n - d2) symbol_t.NO_SYMBOL) := by
  have hsplit : n = (d2 - 1) + (n - d2 + 1) := by omega
  have ht : t0 + (d2 - 1) + 1 = t0 + d2 := by omega
  have hexp : expired (t0 + d2) ((t0 + d2) % 65536) = true :=
    expired_true_of_ge t0 d2 d2 le_rfl (by omega)
  have harm : t0 + d2 + d3 = t0 + (d2 + d3) := by omega
  have hstep : tokenize d2 d3 { st := TokSt.INTERELEMENT, timeout := (t0 + d2) % 65536 }
      Edge.NO_EDGE (t0 + d2) =
      ({ st := TokSt.INTERCHARACTER, timeout := (t0 + (d2 + d3)) % 65536 },
        symbol_t.END_OF_CHAR) := by
    simp [tokenize, hexp, harm]
  have hstay := runQuiet_stay d2 d3 t0 (d2 + d3) TokSt.INTERCHARACTER
    (Or.inr (Or.inr rfl)) (by omega) (n - d2) d2 (by omega)
  conv_lhs => rw [hsplit]
  rw [runQuiet_add]
  rw [quiet_ie_small d2 d3 t0 (d2 - 1) (by omega) (by omega)]
  simp only [runQuiet, ht, hstep, hstay]

/-- A quiet run from INTERELEMENT of at least `d2 + d3` polls emits
END_OF_CHAR at `d2` polls and END_OF_WORD at `d2 + d3` polls, ending
in INTERWORD. -/
theorem quiet_ie_large (d2 d3 t0 n : Nat) (h2 : 1 ≤ d2) (h3 : 1 ≤ d3)
    (h23 : d2 + d3 ≤ 32767) (hn : d2 + d3 ≤ n) :
    runQuiet d2 d3 n { st := TokSt.INTERELEMENT, timeout := (t0 + d2) % 65536 } t0 =
      ({ st := TokSt.INTERWORD, timeout := (t0 + (d2 + d3)) % 65536 },
        List.replicate (d2 - 1) symbol_t.NO_SYMBOL ++
          symbol_t.END_OF_CHAR :: List.replicate (d3 - 1) symbol_t.NO_SYMBOL ++
            symbol_t.END_OF_WORD :: List.replicate (n - d2 - d3) symbol_t.NO_SYMBOL) := by
  have hsplit : n = (d2 + d3 - 1) + (n - (d2 + d3) + 1) := by omega
  have ht : t0 + (d2 + d3 - 1) + 1 = t0 + (d2 + d3) := by omega
  have hexp : expired (t0 + (d2 + d3)) ((t0 + (d2 + d3)) % 65536) = true :=
    expired_true_of_ge t0 (d2 + d3) (d2 + d3) le_rfl (by omega)
  have hstep : tokenize d2 d3 { st := TokSt.INTERCHARACTER, timeout := (t0 + (d2 + d3)) % 65536 }
      Edge.NO_EDGE (t0 + (d2 + d3)) =
      ({ st := TokSt.INTERWORD, timeout := (t0 + (d2 + d3)) % 65536 },
        symbol_t.END_OF_WORD) := by
    simp [tokenize, hexp]
  conv_lhs => rw [hsplit]
  rw [runQuiet_add]
  rw [quiet_ie_mid d2 d3 t0 (d2 + d3 - 1) h2 h23 (by omega) (by omega)]
  simp only [runQuiet, ht, hstep, runQuiet_interword]
  rw [show d2 + d3 - 1 - d2 = d3 - 1 from by omega,
      show n - (d2 + d3) = n - d2 - d3 from by omega]

/-- `emitted` keeps a symbol iff it is not NO_SYMBOL. -/
theorem emitted_cons (x : symbol_t) (l : List symbol_t) :
    emitted (x :: l) =
      if x = symbol_t.NO_SYMBOL then emitted l else x :: emitted l := by
  by_cases hx : x = symbol_t.NO_SYMBOL <;> simp [emitted, List.filter_cons, hx]

/-- `emitted` of the empty poll list. -/
theorem emitted_nil : emitted [] = [] := rfl

/-- Full classification of a mark scenario: with a dot threshold of
`d2` tics, a mark of `D ≤ d2` tics emits exactly one DOT (the rising
edge is examined before the expiry test, so the boundary case stays a
dot), and a mark of `D > d2` tics emits exactly one DASH. -/
theorem markRun_char (d2 d3 t0 D : Nat) (h1 : 1 ≤ d2) (hb : d2 ≤ 32767) (hD : 1 ≤ D) :
    (D ≤ d2 → emitted (markRun d2 d3 t0 D).2 = [symbol_t.DOT])
    ∧ (d2 < D → emitted (markRun d2 d3 t0 D).2 = [symbol_t.DASH]) := by
  constructor
  · intro h
    simp only [markRun]
    rw [quiet_short_small d2 d3 t0 (D - 1) (by omega) (by omega)]
    have hstep : tokenize d2 d3 { st := TokSt.SHORT, timeout := (t0 + d2) % 65536 }
        Edge.RISE (t0 + D) =
        ({ st := TokSt.INTERELEMENT, timeout := (t0 + D + d2) % 65536 }, symbol_t.DOT) := by
      simp [tokenize]
    simp only [hstep]
    rw [emitted_append, emitted_replicate]
    simp [emitted_cons, emitted_nil]
  · intro h
    simp only [markRun]
    rw [quiet_short_large d2 d3 t0 (D - 1) h1 hb (by omega)]
    have hstep : tokenize d2 d3 { st := TokSt.LONG, timeout := (t0 + d2) % 65536 }
        Edge.RISE (t0 + D) =
        ({ st := TokSt.INTERELEMENT, timeout := (t0 + D + d2) % 65536 }, symbol_t.DASH) := by
      simp [tokenize]
    simp only [hstep]
    rw [emitted_append, emitted_replicate]
    simp [emitted_cons, emitted_nil]

/-- Full classification of a gap scenario: with the end-of-char
deadline armed `d2` tics after the closing rising edge and the
end-of-word deadline armed `d3` tics after END_OF_CHAR fires, a gap of
`G ≤ d2` tics emits nothing (a fall arriving exactly at the deadline
poll pre-empts the expiry), a gap with `d2 < G ≤ d2 + d3` emits
exactly one END_OF_CHAR, and a gap with `G > d2 + d3` emits
END_OF_CHAR followed by END_OF_WORD. -/
theorem gapRun_char (d2 d3 t0 G : Nat) (h2 : 1 ≤ d2) (h3 : 1 ≤ d3)
    (h23 : d2 + d3 ≤ 32767) (hG : 1 ≤ G) :
    (G ≤ d2 → emitted (gapRun d2 d3 t0 G).2 = [])
    ∧ (d2 < G → G ≤ d2 + d3 →
        emitted (gapRun d2 d3 t0 G).2 = [symbol_t.END_OF_CHAR])
    ∧ (d2 + d3 < G →
        emitted (gapRun d2 d3 t0 G).2 = [symbol_t.END_OF_CHAR, symbol_t.END_OF_WORD]) := by
  refine ⟨?_, ?_, ?_⟩
  · intro h
    simp only [gapRun]
    rw [quiet_ie_small d2 d3 t0 (G - 1) (by omega) (by omega)]
    have hstep : tokenize d2 d3 { st := TokSt.INTERELEMENT, timeout := (t0 + d2) % 65536 }
        Edge.FALL (t0 + G) =
        ({ st := TokSt.SHORT, timeout := (t0 + G + d2) % 65536 }, symbol_t.NO_SYMBOL) := by
      simp [tokenize]
    simp only [hstep]
    rw [emitted_append, emitted_replicate]
    simp [emitted_cons, emitted_nil]
  · intro ha hb2
    simp only [gapRun]
    rw [quiet_ie_mid d2 d3 t0 (G - 1) h2 h23 (by omega) (by omega)]
    have hstep : tokenize d2 d3 { st := TokSt.INTERCHARACTER, timeout := (t0 + (d2 + d3)) % 65536 }
        Edge.FALL (t0 + G) =
        ({ st := TokSt.SHORT, timeout := (t0 + G + d2) % 65536 }, symbol_t.NO_SYMBOL) := by
      simp [tokenize]
    simp only [hstep]
    simp [emitted_append, emitted_cons, emitted_replicate, emitted_nil]
  · intro h
    simp only [gapRun]
    rw [quiet_ie_large d2 d3 t0 (G - 1) h2 h3 h23 (by omega)]
    have hstep : tokenize d2 d3 { st := TokSt.INTERWORD, timeout := (t0 + (d2 + d3)) % 65536 }
        Edge.FALL (t0 + G) =
        ({ st := TokSt.SHORT, timeout := (t0 + G + d2) % 65536 }, symbol_t.NO_SYMBOL) := by
      simp [tokenize]
    simp only [hstep]
    simp [emitted_append, emitted_cons, emitted_replicate, emitted_nil]

/-! ## C4 -/

/-- C4 (amended): polled once per tic, a mark whose rising edge is
processed `D` tics after the falling edge emits exactly one dot when
`D ≤ 2u` -- boundary included, because the RISE branch of state SHORT
is tested before the timeout -- and exactly one dash when `D > 2u`,
for every configured keying speed. -/
theorem mark_classification (speed : Fin 4) (t0 D : Nat) (hD : 1 ≤ D) :
    (D ≤ delay_2u speed →
      emitted (markRun (delay_2u speed) (delay_3u speed) t0 D).2 = [symbol_t.DOT])
    ∧ (delay_2u speed < D →
      emitted (markRun (delay_2u speed) (delay_3u speed) t0 D).2 = [symbol_t.DASH]) := by
  have hdel : 1 ≤ delay_2u speed ∧ delay_2u speed ≤ 32767 := by
    revert speed; decide
  exact markRun_char _ _ t0 D hdel.1 hdel.2 hD

/-- C4 (counterexample): at speed index 0 (delay_2u = 1280 tics) a
mark of exactly 2 time units emits a DOT, not the DASH the claim
demands for the boundary case. -/
theorem mark_exact_two_units_gives_dot :
    delay_2u 0 = 1280 ∧ delay_3u 0 = 1920 ∧
    emitted (markRun 1280 1920 0 1280).2 = [symbol_t.DOT] ∧
    emitted (markRun 1280 1920 0 1280).2 ≠ [symbol_t.DASH] := by
  have h := (markRun_char 1280 1920 0 1280 (by omega) (by omega) (by omega)).1 (by omega)
  exact ⟨by decide, by decide, h, by rw [h]; decide⟩

/-- C4 (witness): a mark one tic past the threshold is a dash. -/
theorem mark_classification_witness :
    (1 : Nat) ≤ 1281 ∧ delay_2u 0 < 1281 ∧
    emitted (markRun (delay_2u 0) (delay_3u 0) 7 1281).2 = [symbol_t.DASH] :=
  ⟨by decide, by decide, (mark_classification 0 7 1281 (by decide)).2 (by decide)⟩

/-! ## C2 -/

/-- C2 (amended): polled once per tic, a gap of `G` tics after a mark
produces: nothing when `G ≤ 2u` (the boundary fall pre-empts the
expiry poll); exactly one end-of-char and no end-of-word when
`2u < G ≤ 5u`; and an end-of-char followed by an end-of-word when
`G > 5u`.  The end-of-word threshold is 2u + 3u = 5u because delay_3u
is armed only when the end-of-char fires, not 3u as claimed. -/
theorem gap_classification (speed : Fin 4) (t0 G : Nat) (hG : 1 ≤ G) :
    (G ≤ delay_2u speed →
      emitted (gapRun (delay_2u speed) (delay_3u speed) t0 G).2 = [])
    ∧ (delay_2u speed < G → G ≤ delay_2u speed + delay_3u speed →
      emitted (gapRun (delay_2u speed) (delay_3u speed) t0 G).2 = [symbol_t.END_OF_CHAR])
    ∧ (delay_2u speed + delay_3u speed < G →
      emitted (gapRun (delay_2u speed) (delay_3u speed) t0 G).2 =
        [symbol_t.END_OF_CHAR, symbol_t.END_OF_WORD]) := by
  have hdel : 1 ≤ delay_2u speed ∧ 1 ≤ delay_3u speed ∧
      delay_2u speed + delay_3u speed ≤ 32767 := by
    revert speed; decide
  exact gapRun_char _ _ t0 G hdel.1 hdel.2.1 hdel.2.2 hG

/-- C2 (counterexample): at speed index 0 (delay_2u = 1280,
delay_3u = 1920 tics) a gap of exactly 3 time units (1920 tics) emits
exactly one END_OF_CHAR and no END_OF_WORD at all, refuting the
claimed rule that any gap of 3u or more produces an end-of-char
followed by an end-of-word. -/
theorem gap_three_units_no_end_of_word :
    delay_2u 0 = 1280 ∧ delay_3u 0 = 1920 ∧
    emitted (gapRun 1280 1920 0 1920).2 = [symbol_t.END_OF_CHAR] ∧
    symbol_t.END_OF_WORD ∉ (gapRun 1280 1920 0 1920).2 := by
  have h := (gapRun_char 1280 1920 0 1920 (by omega) (by omega) (by omega)
    (by omega)).2.1 (by omega) (by omega)
  refine ⟨by decide, by decide, h, ?_⟩
  intro hmem
  have hm : symbol_t.END_OF_WORD ∈ emitted (gapRun 1280 1920 0 1920).2 := by
    simp only [emitted, List.mem_filter]
    exact ⟨hmem, by decide⟩
  rw [h] at hm
  simp at hm

/-- C2 (witness): a gap just past 5u yields end-of-char then
end-of-word. -/
theorem gap_classification_witness :
    (1 : Nat) ≤ 3201 ∧ delay_2u 0 + delay_3u 0 < 3201 ∧
    emitted (gapRun (delay_2u 0) (delay_3u 0) 5 3201).2 =
      [symbol_t.END_OF_CHAR, symbol_t.END_OF_WORD] :=
  ⟨by decide, by decide, (gap_classification 0 5 3201 (by decide)).2.2 (by decide)⟩

/-! ## C7 -/

/-- While BOUNCING with a pending (unexpired) debounce deadline, polls
with the key still released leave the edge detector untouched and emit
no edge. -/
theorem edRunQuiet_stay (t0 b : Nat) (led : Bool) (hb : b ≤ 32768) :
    ∀ n k : Nat, k + n < b →
      edRunQuiet n { st := EdSt.BOUNCING, timeout := (t0 + b) % 65536, led := led } (t0 + k) =
        ({ st := EdSt.BOUNCING, timeout := (t0 + b) % 65536, led := led },
          List.replicate n Edge.NO_EDGE) := by
  intro n
  induction n with
  | zero =>
      intro k hk
      simp [edRunQuiet]
  | succ n ih =>
      intro k hk
      have hexp : expired (t0 + k + 1) ((t0 + b) % 65536) = false := by
        have h := expired_false_of_lt t0 (k + 1) b (by omega) (by omega)
        rwa [← Nat.add_assoc] at h
      have hstep : get_edge { st := EdSt.BOUNCING, timeout := (t0 + b) % 65536, led := led }
          false (t0 + k + 1) =
          ({ st := EdSt.BOUNCING, timeout := (t0 + b) % 65536, led := led }, Edge.NO_EDGE) := by
        simp [get_edge, hexp]
      have hrec := ih (k + 1) (by omega)
      rw [← Nat.add_assoc] at hrec
      simp only [edRunQuiet, hstep, hrec]
      simp [List.replicate_succ]

/-- C7: from DOWN, a release at `t0` followed by re-assertion at
`t0 + r` with `r` at most the debounce window produces no edge at any
of the `r + 1` polls of the episode and returns the detector to DOWN
(the bounce is absorbed). -/
theorem debounce_bounce_absorbed (t0 r T : Nat) (led : Bool)
    (h1 : 1 ≤ r) (h2 : r ≤ DEBOUNCE_TIME) :
    (bounceRun t0 r T led).1.st = EdSt.DOWN
    ∧ (bounceRun t0 r T led).2 = List.replicate (r + 1) Edge.NO_EDGE := by
  simp only [bounceRun]
  have hp : get_edge { st := EdSt.DOWN, timeout := T, led := led } false t0 =
      ({ st := EdSt.BOUNCING, timeout := (t0 + DEBOUNCE_TIME) % 65536, led := led },
        Edge.NO_EDGE) := by
    simp [get_edge]
  simp only [hp]
  have hq := edRunQuiet_stay t0 DEBOUNCE_TIME led (by decide) (r - 1) 0 (by omega)
  rw [Nat.add_zero] at hq
  rw [hq]
  have hf : get_edge { st := EdSt.BOUNCING, timeout := (t0 + DEBOUNCE_TIME) % 65536, led := led }
      true (t0 + r) =
      ({ st := EdSt.DOWN, timeout := (t0 + DEBOUNCE_TIME) % 65536, led := led },
        Edge.NO_EDGE) := by
    simp [get_edge]
  rw [hf]
  refine ⟨rfl, ?_⟩
  dsimp only
  rw [show ([Edge.NO_EDGE] : List Edge) = List.replicate 1 Edge.NO_EDGE from rfl,
      ← List.replicate_succ, ← List.replicate_add,
      show r - 1 + 1 + 1 = r + 1 from by omega]

/-- C7 (witness): a release of the full debounce window re-asserted at
its last tic, starting at time 0. -/
theorem debounce_bounce_absorbed_witness :
    (1 : Nat) ≤ 96 ∧ (96 : Nat) ≤ DEBOUNCE_TIME ∧
    ((bounceRun 0 96 0 true).1.st = EdSt.DOWN
      ∧ (bounceRun 0 96 0 true).2 = List.replicate 97 Edge.NO_EDGE) := by
  refine ⟨by decide, by decide, ?_⟩
  have h := debounce_bounce_absorbed 0 96 0 true (by decide) (by decide)
  simpa using h

/-! ## C5 -/

/-- Oring a fresh power of two into a number below it is an addition. -/
theorem lor_two_pow_eq_add (k a : Nat) (h : a < 2 ^ k) : a ||| 2 ^ k = 2 ^ k + a := by
  have h1 := Nat.mul_add_lt_is_or h 1
  rw [Nat.mul_one] at h1
  rw [Nat.lor_comm]
  exact h1.symm

/-- The translation bitmask only grows. -/
theorem seqBmAux_ge (seq : List Mark) : ∀ bm : Nat, bm ≤ seqBmAux bm seq := by
  induction seq with
  | nil => intro bm; simp [seqBmAux]
  | cons m r ih =>
      intro bm
      cases m
      · exact le_trans (by omega) (ih (bm * 2))
      · exact le_trans (by omega) (ih (bm * 2 * 2))

/-- Shape of the generator translation loop: starting from a code
below the bitmask 2^k, the final bitmask is a power 2^j, the final
code stays below it, and (for a nonempty sequence) reaches at least
half of it -- the last appended mark sets the bit just below the final
bitmask. -/
theorem seqCode_props : ∀ (seq : List Mark) (c k : Nat), c < 2 ^ k →
    ∃ j, k ≤ j ∧ seqBmAux (2 ^ k) seq = 2 ^ j ∧ seqCodeAux c (2 ^ k) seq < 2 ^ j
      ∧ (seq = [] → seqCodeAux c (2 ^ k) seq = c ∧ j = k)
      ∧ (seq ≠ [] → 2 ^ j ≤ 2 * seqCodeAux c (2 ^ k) seq) := by
  intro seq
  induction seq with
  | nil =>
      intro c k hc
      refine ⟨k, le_rfl, by simp [seqBmAux], by simpa [seqCodeAux] using hc,
        fun _ => ⟨by simp [seqCodeAux], rfl⟩, fun h => absurd rfl h⟩
  | cons m r ih =>
      intro c k hc
      cases m
      case dot =>
        have hp : (2 : Nat) ^ k * 2 = 2 ^ (k + 1) := (pow_succ 2 k).symm
        have hcc : c ||| 2 ^ k = 2 ^ k + c := lor_two_pow_eq_add k c hc
        have hps := pow_succ 2 k
        have hlt : 2 ^ k + c < 2 ^ (k + 1) := by omega
        obtain ⟨j, hkj, hbm, hcd, hnil, hne⟩ := ih (2 ^ k + c) (k + 1) hlt
        refine ⟨j, by omega, ?_, ?_, ?_, ?_⟩
        · simp only [seqBmAux, hp]
          exact hbm
        · simp only [seqCodeAux, hcc, hp]
          exact hcd
        · intro h
          exact (List.cons_ne_nil _ _ h).elim
        · intro _
          simp only [seqCodeAux, hcc, hp]
          by_cases hr : r = []
          · subst hr
            obtain ⟨he, hj⟩ := hnil rfl
            rw [he, hj]
            omega
          · exact hne hr
      case dash =>
        have hp1 : (2 : Nat) ^ k * 2 = 2 ^ (k + 1) := (pow_succ 2 k).symm
        have hp2 : (2 : Nat) ^ (k + 1) * 2 = 2 ^ (k + 2) := (pow_succ 2 (k + 1)).symm
        have hps1 := pow_succ 2 k
        have hps2 := pow_succ 2 (k + 1)
        have hc1 : c < 2 ^ (k + 1) := by omega
        have hcc : c ||| 2 ^ (k + 1) = 2 ^ (k + 1) + c := lor_two_pow_eq_add (k + 1) c hc1
        have hlt : 2 ^ (k + 1) + c < 2 ^ (k + 2) := by omega
        obtain ⟨j, hkj, hbm, hcd, hnil, hne⟩ := ih (2 ^ (k + 1) + c) (k + 2) hlt
        refine ⟨j, by omega, ?_, ?_, ?_, ?_⟩
        · simp only [seqBmAux, hp1, hp2]
          exact hbm
        · simp only [seqCodeAux, hp1, hcc, hp2]
          exact hcd
        · intro h
          exact (List.cons_ne_nil _ _ h).elim
        · intro _
          simp only [seqCodeAux, hp1, hcc, hp2]
          by_cases hr : r = []
          · subst hr
            obtain ⟨he, hj⟩ := hnil rfl
            rw [he, hj]
            omega
          · exact hne hr

/-- While the translation bitmask stays below 2^16, the runtime
decoder accumulates exactly the code number the offline generator
assigns to the mark sequence: the 16-bit wraps in `decode` never
trigger. -/
theorem decodeRun_marks : ∀ (seq : List Mark) (c k : Nat), c < 2 ^ k →
    seqBmAux (2 ^ k) seq < 65536 →
    decodeRun { code := c, bitmask := 2 ^ k } (seq.map markSymbol) =
      { code := seqCodeAux c (2 ^ k) seq, bitmask := seqBmAux (2 ^ k) seq } := by
  intro seq
  induction seq with
  | nil =>
      intro c k hc hbm
      simp [decodeRun, seqCodeAux, seqBmAux]
  | cons m r ih =>
      intro c k hc hbm
      cases m
      case dot =>
        have hp : (2 : Nat) ^ k * 2 = 2 ^ (k + 1) := (pow_succ 2 k).symm
        have hps := pow_succ 2 k
        have hbm1 : seqBmAux (2 ^ k) (Mark.dot :: r) = seqBmAux (2 ^ (k + 1)) r := by
          simp only [seqBmAux, hp]
        rw [hbm1] at hbm
        have hmono := seqBmAux_ge r (2 ^ (k + 1))
        have hsm : (2 : Nat) ^ k * 2 % 65536 = 2 ^ (k + 1) := by
          rw [hp]; exact Nat.mod_eq_of_lt (by omega)
        have hcc : c ||| 2 ^ k = 2 ^ k + c := lor_two_pow_eq_add k c hc
        have hstep : decode { code := c, bitmask := 2 ^ k } symbol_t.DOT =
            ({ code := 2 ^ k + c, bitmask := 2 ^ (k + 1) }, 0) := by
          simp [decode, hsm, hcc]
        simp only [List.map_cons, markSymbol, decodeRun, hstep]
        rw [ih (2 ^ k + c) (k + 1) (by omega) hbm]
        simp only [seqCodeAux, seqBmAux, hcc, hp]
      case dash =>
        have hp1 : (2 : Nat) ^ k * 2 = 2 ^ (k + 1) := (pow_succ 2 k).symm
        have hp2 : (2 : Nat) ^ (k + 1) * 2 = 2 ^ (k + 2) := (pow_succ 2 (k + 1)).symm
        have hps1 := pow_succ 2 k
        have hps2 := pow_succ 2 (k + 1)
        have hbm1 : seqBmAux (2 ^ k) (Mark.dash :: r) = seqBmAux (2 ^ (k + 2)) r := by
          simp only [seqBmAux, hp1, hp2]
        rw [hbm1] at hbm
        have hmono := seqBmAux_ge r (2 ^ (k + 2))
        have hsm1 : (2 : Nat) ^ k * 2 % 65536 = 2 ^ (k + 1) := by
          rw [hp1]; exact Nat.mod_eq_of_lt (by omega)
        have hsm2 : (2 : Nat) ^ (k + 1) * 2 % 65536 = 2 ^ (k + 2) := by
          rw [hp2]; exact Nat.mod_eq_of_lt (by omega)
        have hc1 : c < 2 ^ (k + 1) := by omega
        have hcc : c ||| 2 ^ (k + 1) = 2 ^ (k + 1) + c := lor_two_pow_eq_add (k + 1) c hc1
        have hstep : decode { code := c, bitmask := 2 ^ k } symbol_t.DASH =
            ({ code := 2 ^ (k + 1) + c, bitmask := 2 ^ (k + 2) }, 0) := by
          simp only [decode, hsm1, hcc]
          rw [hsm2]
        simp only [List.map_cons, markSymbol, decodeRun, hstep]
        rw [ih (2 ^ (k + 1) + c) (k + 2) (by omega) hbm]
        simp only [seqCodeAux, seqBmAux, hp1, hcc, hp2]

/-- C5: feeding the dot/dash sequence of any CodeTable entry (any
sequence whose generator translation equals that entry, necessarily
nonzero) through the decoder, followed by END_OF_CHAR, reproduces the
character of that entry: the underscore (95) for index 0 and
32 + index otherwise. -/
theorem table_entry_round_trip (i : Nat) (seq : List Mark)
    (hi : i < 59) (hnz : morse_code.getD i 0 ≠ 0)
    (hseq : seqCode seq = morse_code.getD i 0) :
    decodeChar (seq.map markSymbol) = if i = 0 then 95 else 32 + i := by
  have hne : seq ≠ [] := by
    intro h
    subst h
    exact hnz (by rw [← hseq]; rfl)
  have hbound : morse_code.getD i 0 ≤ 853 := by
    have hall : ∀ j : Nat, j < 59 → morse_code.getD j 0 ≤ 853 := by decide
    exact hall i hi
  obtain ⟨j, hkj, hbm, hlt, hnil, hge⟩ := seqCode_props seq 0 0 (by norm_num)
  have hcode : seqCodeAux 0 (2 ^ 0) seq = morse_code.getD i 0 := by
    simpa [seqCode] using hseq
  have h2j : 2 ^ j ≤ 2 * morse_code.getD i 0 := by
    rw [← hcode]
    exact hge hne
  have hbmlt : seqBmAux (2 ^ 0) seq < 65536 := by
    rw [hbm]
    omega
  have hrun := decodeRun_marks seq 0 0 (by norm_num) hbmlt
  have hchar : decodeChar (seq.map markSymbol) = code_to_char (seqCodeAux 0 (2 ^ 0) seq) := by
    simp only [decodeChar]
    rw [show ({ code := 0, bitmask := 1 } : DecState) = { code := 0, bitmask := 2 ^ 0 } from by norm_num]
    rw [hrun]
    simp [decode]
  rw [hchar, hcode]
  have hfin : ∀ j2 : Nat, j2 < 59 → morse_code.getD j2 0 ≠ 0 →
      code_to_char (morse_code.getD j2 0) = if j2 = 0 then 95 else 32 + j2 := by decide
  exact hfin i hi hnz

/-- C5 (witness): the sequence dot, dash, dot, dot translates to code
number 29, the entry at index 44 of the table, and decodes to 76,
the character L. -/
theorem table_entry_round_trip_witness :
    (44 : Nat) < 59 ∧ morse_code.getD 44 0 ≠ 0 ∧
    seqCode [Mark.dot, Mark.dash, Mark.dot, Mark.dot] = morse_code.getD 44 0 ∧
    decodeChar ([Mark.dot, Mark.dash, Mark.dot, Mark.dot].map markSymbol) = 76 :=
  ⟨by decide, by decide, by decide, by
    simpa using table_entry_round_trip 44 [Mark.dot, Mark.dash, Mark.dot, Mark.dot]
      (by decide) (by decide) (by decide)⟩

/-! ## C10 -/

/-- A bitwise or is zero only when both operands are. -/
theorem lor_eq_zero (a b : Nat) (h : a ||| b = 0) : a = 0 ∧ b = 0 := by
  constructor
  · by_contra ha
    obtain ⟨i, hi⟩ := Nat.ne_zero_implies_bit_true ha
    have ht := Nat.testBit_or a b i
    rw [h] at ht
    simp [Nat.zero_testBit, hi] at ht
  · by_contra hb
    obtain ⟨i, hi⟩ := Nat.ne_zero_implies_bit_true hb
    have ht := Nat.testBit_or a b i
    rw [h] at ht
    simp [Nat.zero_testBit, hi] at ht

/-- One poll of the pipeline preserves the invariant. -/
theorem pipeInv_step (d2 d3 : Nat) (s : PipeState) (e : Edge) (now : Nat)
    (h : pipeInv s) : pipeInv (pipeStep d2 d3 s e now) := by
  obtain ⟨h1, h2, h3, h4⟩ := h
  rcases s with ⟨⟨st, T⟩, ⟨code, bm⟩, marks⟩
  dsimp only at h1 h2 h3 h4
  have hdot : code ||| bm ≠ 0 := by
    intro hz
    obtain ⟨hc, hb⟩ := lor_eq_zero code bm hz
    have := h1 hc
    omega
  have hdash : code ||| (bm * 2 % 65536) ≠ 0 := by
    intro hz
    obtain ⟨hc, hb⟩ := lor_eq_zero code (bm * 2 % 65536) hz
    have := h1 hc
    omega
  cases st <;> cases e <;> cases hexp : expired now T <;>
    simp_all [pipeInv, pipeStep, tokenize, decode]

/-- The invariant holds in every reachable pipeline state, for any
delays and any poll sequence. -/
theorem pipeInv_run (d2 d3 : Nat) (polls : List (Edge × Nat)) :
    pipeInv (pipeRun d2 d3 polls) := by
  have hinit : pipeInv pipeInit := by
    refine ⟨fun _ => rfl, fun _ => ⟨rfl, rfl⟩, ?_, ?_⟩ <;> intro hx <;> exact nomatch hx
  suffices hgen : ∀ (l : List (Edge × Nat)) (s0 : PipeState), pipeInv s0 →
      pipeInv (l.foldl (fun s p => pipeStep d2 d3 s p.1 p.2) s0) by
    exact hgen polls pipeInit hinit
  intro l
  induction l with
  | nil => intro s0 h0; exact h0
  | cons p r ih =>
      intro s0 h0
      exact ih _ (pipeInv_step d2 d3 s0 p.1 p.2 h0)

/-- C10: in every run of the tokenizer-decoder pipeline from the
initial state (tokenizer in INTERWORD, decoder reset), whatever the
configured delays, the poll sequence, and the next poll inputs, if the
next poll emits END_OF_CHAR then the decoder has already accumulated a
nonzero code number, and at least one DOT or DASH has been emitted
since the previous END_OF_CHAR (ghost counter), so the `code == 0`
lookup case is unreachable through the pipeline. -/
theorem end_of_char_code_nonzero (d2 d3 : Nat) (polls : List (Edge × Nat))
    (e : Edge) (now : Nat)
    (h : (tokenize d2 d3 (pipeRun d2 d3 polls).tok e now).2 = symbol_t.END_OF_CHAR) :
    (pipeRun d2 d3 polls).dec.code ≠ 0 ∧ 1 ≤ (pipeRun d2 d3 polls).marks := by
  have hinv := pipeInv_run d2 d3 polls
  obtain ⟨h1, h2, h3, h4⟩ := hinv
  set s := pipeRun d2 d3 polls with hs
  cases hstt : s.tok.st <;> cases e <;> cases hexp : expired now s.tok.timeout <;>
    (try simp [tokenize, hstt, hexp] at h) <;>
    exact h4 hstt

/-- C10 (witness): after the polls fall at 0 and rise at 1 (one dot),
the poll at tic 1281 emits END_OF_CHAR with code 1 and one mark
accumulated (delays of speed index 0). -/
theorem end_of_char_code_nonzero_witness :
    (tokenize 1280 1920 (pipeRun 1280 1920 [(Edge.FALL, 0), (Edge.RISE, 1)]).tok
        Edge.NO_EDGE 1281).2 = symbol_t.END_OF_CHAR
    ∧ ((pipeRun 1280 1920 [(Edge.FALL, 0), (Edge.RISE, 1)]).dec.code ≠ 0
        ∧ 1 ≤ (pipeRun 1280 1920 [(Edge.FALL, 0), (Edge.RISE, 1)]).marks) :=
  ⟨by decide,
    end_of_char_code_nonzero 1280 1920 [(Edge.FALL, 0), (Edge.RISE, 1)]
      Edge.NO_EDGE 1281 (by decide)⟩
